import Mathlib

/-!
Verification development for the `ShapeRecognition` event-chain element of the
klecks drawing application (`src/app/script/bb/math/shape-recognition.ts`),
together with its console entry point (`src/app/script/app/console-api.ts`).

Modelling conventions:

* JavaScript numbers are modelled as exact rationals (`ℚ`).  The source calls
  `Math.sqrt` in the circle and line heuristics; the square root of a rational
  is in general irrational, so every definition that the source computes with
  `Math.sqrt` takes an explicit function parameter `sq : ℚ → ℚ` standing for
  the square root applied to the (always non-negative) squared quantity.
  This keeps every definition computable; theorems assume of `sq` only the
  properties they actually need, and each such assumption is satisfied by a
  concrete rational function, exhibited in the corresponding witness.
* The `aspect` value computed as `height === 0 ? Infinity : width / height`
  is modelled as `Option ℚ` with `none` standing for `+Infinity`; the two
  comparison shapes used by the source (`aspect > t`, `aspect < t` for finite
  positive `t`) are `infGT` and `infLT`.
* `setTimeout` / `clearTimeout` are modelled by a boolean `timerArmed` field
  (the class invariant is that at most one timer is pending); the timer
  callback firing is an explicit `Act.fire` step.  `Date.now()` is passed in
  as an explicit `now` argument.
* The optional external recognizer (`@tldraw/...`, probed by a dynamic
  `eval('import(...)')` that is not part of this repository's sources) is
  modelled as an optional synchronous `PluginRecognizer` value; `none` is the
  module-absent steady state.  An adapter exception is observationally the
  same as a `none` result (both fall through to the built-in classifier).
* `BB.copyObj(event)` produces a deep copy that is value-equal to its input;
  events are modelled as immutable values, so the copy is the value itself.
-/

namespace Klecks

/-- A recorded sample point `{x, y, time}` (coordinates and timestamp as
exact rationals). -/
structure Pt where
  x : ℚ
  y : ℚ
  time : ℚ
deriving DecidableEq, Repr

/-- The closed set of shape tags `'circle' | 'rectangle' | 'line'`. -/
inductive ShapeType where
  | circle
  | rectangle
  | line
deriving DecidableEq, Repr

/-- The parameter rectangle `{x1, y1, x2, y2}` returned by `getShapeParams`. -/
structure ShapeParams where
  x1 : ℚ
  y1 : ℚ
  x2 : ℚ
  y2 : ℚ
deriving DecidableEq, Repr

/-- The stored `recognizedShape` value `{type, x1, y1, x2, y2}`. -/
structure Recognized where
  type : ShapeType
  x1 : ℚ
  y1 : ℚ
  x2 : ℚ
  y2 : ℚ
deriving DecidableEq, Repr

/-- A draw event of kind down / move / up (a down or move carries at least
`x` and `y`). -/
inductive DrawEvent where
  | down (x y : ℚ)
  | move (x y : ℚ)
  | up
deriving DecidableEq, Repr

/-- The mutable instance state of a `ShapeRecognition` object: the stroke
buffer `points`, the `isHolding` flag, whether a hold timer is pending
(`timerArmed`, abstracting the `holdTimeout` handle), and the stored
`recognizedShape`. -/
structure MState where
  points : List Pt
  isHolding : Bool
  timerArmed : Bool
  recognizedShape : Option Recognized
deriving DecidableEq, Repr

/-- Field initializers of the class: empty buffer, not holding, no pending
timer, no recognized shape. -/
def initState : MState := ⟨[], false, false, none⟩

/-- The optional external recognizer adapter: `recognize(points)` yielding a
shape tag or null, and an optional `getParams(type, points)`. -/
structure PluginRecognizer where
  recognize : List Pt → Option ShapeType
  getParams : Option (ShapeType → List Pt → ShapeParams)

/-- Sum of a list of rationals (models the `for`-loop accumulations). -/
def qsum (l : List ℚ) : ℚ := l.foldl (· + ·) 0

/-- `Math.min(...xs)` over a nonempty spread; every call site in the source
guards nonemptiness via a length gate, so the `[]` case (JS `Infinity`) is
given an arbitrary value. -/
def listMin : List ℚ → ℚ
  | [] => 0
  | x :: xs => xs.foldl min x

/-- `Math.max(...xs)`; see `listMin` for the `[]` case. -/
def listMax : List ℚ → ℚ
  | [] => 0
  | x :: xs => xs.foldl max x

/-- `aspect > t` where `aspect : Option ℚ` encodes a value that is
`+Infinity` when `none`: infinity exceeds every finite threshold. -/
def infGT (a : Option ℚ) (t : ℚ) : Bool :=
  match a with
  | none => true
  | some q => decide (t < q)

/-- `aspect < t` where `none` encodes `+Infinity`: infinity is below no
finite threshold. -/
def infLT (a : Option ℚ) (t : ℚ) : Bool :=
  match a with
  | none => false
  | some q => decide (q < t)

/-- The bounding-box aspect computed at the top of `detectShape` (and of the
static `recognizeShapeFromPoints`): `width / height`, with `none` standing
for the `Infinity` produced when `height === 0`. -/
def bboxAspect (points : List Pt) : Option ℚ :=
  let xs := points.map Pt.x
  let ys := points.map Pt.y
  let width := listMax xs - listMin xs
  let height := listMax ys - listMin ys
  if height = 0 then none else some (width / height)

/-- Squared chord length between the first and the last point (the source
computes `length = Math.sqrt(dx*dx + dy*dy)`; this is the argument of that
square root).  Defaults are irrelevant at the guarded call sites. -/
def chordSq (points : List Pt) : ℚ :=
  let s := points.headD ⟨0, 0, 0⟩
  let e := points.getLastD ⟨0, 0, 0⟩
  let dx := e.x - s.x
  let dy := e.y - s.y
  dx * dx + dy * dy

/-- Instance method `isLine` (the revision in
`bb/math/shape-recognition.ts`): mean perpendicular deviation of the interior
points from the first-to-last chord must be below 7.  Note: unlike
`isLineStatic`, this version has no minimum-length gate and no chord-length
gate.  `(length || 1)` is modelled by the `if length = 0` divisor. -/
def isLine (sq : ℚ → ℚ) (points : List Pt) : Bool :=
  let s := points.headD ⟨0, 0, 0⟩
  let e := points.getLastD ⟨0, 0, 0⟩
  let dx := e.x - s.x
  let dy := e.y - s.y
  let length := sq (dx * dx + dy * dy)
  let interior := (points.drop 1).dropLast
  let total := qsum (interior.map
    (fun p => |dy * (p.x - s.x) - dx * (p.y - s.y)| / (if length = 0 then 1 else length)))
  let avgDeviation := total / max 1 ((points.length : ℚ) - 2)
  decide (avgDeviation < 7)

/-- Static method `isLineStatic`: same deviation test as `isLine` but gated
by `points.length >= 5` and chord length `>= 15`. -/
def isLineStatic (sq : ℚ → ℚ) (points : List Pt) : Bool :=
  if points.length < 5 then false
  else
    let s := points.headD ⟨0, 0, 0⟩
    let e := points.getLastD ⟨0, 0, 0⟩
    let dx := e.x - s.x
    let dy := e.y - s.y
    let length := sq (dx * dx + dy * dy)
    if length < 15 then false
    else
      let interior := (points.drop 1).dropLast
      let total := qsum (interior.map
        (fun p => |dy * (p.x - s.x) - dx * (p.y - s.y)| / (if length = 0 then 1 else length)))
      let avgDeviation := total / max 1 ((points.length : ℚ) - 2)
      decide (avgDeviation < 7)

/-- Instance method `isCircle`: round-ish bounding box plus low mean absolute
deviation of point-to-centroid distances from their mean. -/
def isCircle (sq : ℚ → ℚ) (points : List Pt) : Bool :=
  if points.length < 20 then false
  else
    let xs := points.map Pt.x
    let ys := points.map Pt.y
    let width := listMax xs - listMin xs
    let height := listMax ys - listMin ys
    if width < 10 ∨ height < 10 then false
    else
      let aspect := width / height
      if aspect < 0.7 ∨ aspect > 1.3 then false
      else
        let n : ℚ := points.length
        let centerX := qsum xs / n
        let centerY := qsum ys / n
        let dists := points.map (fun p => sq ((p.x - centerX) ^ 2 + (p.y - centerY) ^ 2))
        let avgRadius := qsum dists / n
        let variance := qsum (dists.map (fun d => |d - avgRadius|)) / n
        decide (variance < avgRadius * 0.5)

/-- Static method `isCircleStatic` (same body as `isCircle`). -/
def isCircleStatic (sq : ℚ → ℚ) (points : List Pt) : Bool :=
  if points.length < 20 then false
  else
    let xs := points.map Pt.x
    let ys := points.map Pt.y
    let width := listMax xs - listMin xs
    let height := listMax ys - listMin ys
    if width < 10 ∨ height < 10 then false
    else
      let aspect := width / height
      if aspect < 0.7 ∨ aspect > 1.3 then false
      else
        let n : ℚ := points.length
        let centerX := qsum xs / n
        let centerY := qsum ys / n
        let dists := points.map (fun p => sq ((p.x - centerX) ^ 2 + (p.y - centerY) ^ 2))
        let avgRadius := qsum dists / n
        let variance := qsum (dists.map (fun d => |d - avgRadius|)) / n
        decide (variance < avgRadius * 0.5)

/-- Instance method `isRectangle`: corner-based test; at least 3 of the 4
bounding-box corners must be approached within `cornerThreshold`. -/
def isRectangle (points : List Pt) : Bool :=
  if points.length < 12 then false
  else
    let xs := points.map Pt.x
    let ys := points.map Pt.y
    let minX := listMin xs
    let maxX := listMax xs
    let minY := listMin ys
    let maxY := listMax ys
    let width := maxX - minX
    let height := maxY - minY
    if width < 15 ∨ height < 15 then false
    else
      let aspect := width / height
      if aspect > 5 ∨ aspect < 0.2 then false
      else
        let cornerThreshold := max 8 (min width height * 0.25)
        let topLeft := points.any
          (fun p => decide (|p.x - minX| < cornerThreshold ∧ |p.y - minY| < cornerThreshold))
        let topRight := points.any
          (fun p => decide (|p.x - maxX| < cornerThreshold ∧ |p.y - minY| < cornerThreshold))
        let bottomLeft := points.any
          (fun p => decide (|p.x - minX| < cornerThreshold ∧ |p.y - maxY| < cornerThreshold))
        let bottomRight := points.any
          (fun p => decide (|p.x - maxX| < cornerThreshold ∧ |p.y - maxY| < cornerThreshold))
        let cornerCount := ([topLeft, topRight, bottomLeft, bottomRight].filter (fun v => v)).length
        decide (3 ≤ cornerCount)

/-- Static method `isRectangleStatic` (same body as `isRectangle`). -/
def isRectangleStatic (points : List Pt) : Bool :=
  if points.length < 12 then false
  else
    let xs := points.map Pt.x
    let ys := points.map Pt.y
    let minX := listMin xs
    let maxX := listMax xs
    let minY := listMin ys
    let maxY := listMax ys
    let width := maxX - minX
    let height := maxY - minY
    if width < 15 ∨ height < 15 then false
    else
      let aspect := width / height
      if aspect > 5 ∨ aspect < 0.2 then false
      else
        let cornerThreshold := max 8 (min width height * 0.25)
        let topLeft := points.any
          (fun p => decide (|p.x - minX| < cornerThreshold ∧ |p.y - minY| < cornerThreshold))
        let topRight := points.any
          (fun p => decide (|p.x - maxX| < cornerThreshold ∧ |p.y - minY| < cornerThreshold))
        let bottomLeft := points.any
          (fun p => decide (|p.x - minX| < cornerThreshold ∧ |p.y - maxY| < cornerThreshold))
        let bottomRight := points.any
          (fun p => decide (|p.x - maxX| < cornerThreshold ∧ |p.y - maxY| < cornerThreshold))
        let cornerCount := ([topLeft, topRight, bottomLeft, bottomRight].filter (fun v => v)).length
        decide (3 ≤ cornerCount)

/-- Instance method `detectShape`: the built-in classification decision
procedure (length gate, elongated-is-line-only branch, near-square circle
attempt, rectangle attempt, line fallback). -/
def detectShape (sq : ℚ → ℚ) (points : List Pt) : Option ShapeType :=
  if points.length < 10 then none
  else
    let aspect := bboxAspect points
    if infGT aspect 5 || infLT aspect 0.2 then
      if isLine sq points then some .line else none
    else
      if (infGT aspect 0.7 && infLT aspect 1.3) && isCircle sq points then some .circle
      else if isRectangle points then some .rectangle
      else if isLine sq points then some .line
      else none

/-- Instance method `getShapeParams`.  The source accesses `points[0]` /
`points[length-1]` (line), `sortedXs[0]` / `sortedXs[length-1]` (rectangle)
and divides by `points.length` (circle); on an empty list those accesses are
degenerate (a TypeError or `undefined` / `NaN` fields), which the model
exposes as `none`.  The final `throw new Error('Unknown shape type')` is
unreachable here because `ShapeType` is the closed set of three tags.  The
JS comparator `(a, b) => a - b` sorts ascending, modelled by `mergeSort`
with `≤`. -/
def getShapeParams (sq : ℚ → ℚ) (type : ShapeType) (points : List Pt) : Option ShapeParams :=
  match type with
  | .line =>
    match points.head?, points.getLast? with
    | some f, some l => some ⟨f.x, f.y, l.x, l.y⟩
    | _, _ => none
  | .rectangle =>
    let xs := (points.map Pt.x).mergeSort (fun a b => decide (a ≤ b))
    let ys := (points.map Pt.y).mergeSort (fun a b => decide (a ≤ b))
    match xs.head?, xs.getLast?, ys.head?, ys.getLast? with
    | some x1, some x2, some y1, some y2 => some ⟨x1, y1, x2, y2⟩
    | _, _, _, _ => none
  | .circle =>
    if points.length = 0 then none
    else
      let n : ℚ := points.length
      let centerX := qsum (points.map Pt.x) / n
      let centerY := qsum (points.map Pt.y) / n
      let radius := qsum (points.map
        (fun p => sq ((p.x - centerX) ^ 2 + (p.y - centerY) ^ 2))) / n
      some ⟨centerX - radius, centerY - radius, centerX + radius, centerY + radius⟩

/-- Private method `recognizeShape`, as a state transformer: gate on 10
buffered points; prefer the external recognizer when present (a non-null
external result is stored using the adapter's `getParams` when it has one,
else the built-in `getShapeParams`); on a null external result (or no
adapter) fall back to `detectShape`, storing the result when non-null and
storing `null` when the fallback also fails.  The `| none => s` branches
mirror the unguarded degenerate `getShapeParams` accesses; they are
unreachable on the classification path (see the theorem for C10). -/
def recognizeShape (sq : ℚ → ℚ) (ext : Option PluginRecognizer) (s : MState) : MState :=
  if s.points.length < 10 then s
  else
    let internal : MState :=
      match detectShape sq s.points with
      | some t =>
        match getShapeParams sq t s.points with
        | some ps => { s with recognizedShape := some ⟨t, ps.x1, ps.y1, ps.x2, ps.y2⟩ }
        | none => s
      | none => { s with recognizedShape := none }
    match ext with
    | some er =>
      match er.recognize s.points with
      | some t =>
        let ps? := match er.getParams with
          | some gp => some (gp t s.points)
          | none => getShapeParams sq t s.points
        match ps? with
        | some ps => { s with recognizedShape := some ⟨t, ps.x1, ps.y1, ps.x2, ps.y2⟩ }
        | none => s
      | none => internal
    | none => internal

/-- The bounded append performed by the `move` branch of `chainIn`:
`points.push(p)` followed by `points.shift()` when the length exceeds 200. -/
def boundedPush (l : List Pt) (p : Pt) : List Pt :=
  let l2 := l ++ [p]
  if 200 < l2.length then l2.tail else l2

/-- Public method `chainIn` (the `processEvent` of the spec): drives the
buffer / debounce state and returns the (value of the) incoming event for
pass-through.  `down` resets the buffer to the single new point, clears the
holding flag and (re)arms the timer; `move` appends (bounded) and rearms
only while not holding; `up` cancels the timer and clears everything. -/
def chainIn (s : MState) (event : DrawEvent) (now : ℚ) : MState × DrawEvent :=
  match event with
  | .down x y =>
    ({ s with points := [⟨x, y, now⟩], isHolding := false, timerArmed := true }, event)
  | .move x y =>
    let s2 := { s with points := boundedPush s.points ⟨x, y, now⟩ }
    let s3 := if s2.isHolding then s2 else { s2 with timerArmed := true }
    (s3, event)
  | .up =>
    ({ s with timerArmed := false, isHolding := false, points := [] }, event)

/-- The hold-timeout callback firing: only a pending timer fires; the
callback sets `isHolding` and runs one classification attempt. -/
def fireTimer (sq : ℚ → ℚ) (ext : Option PluginRecognizer) (s : MState) : MState :=
  if s.timerArmed then
    recognizeShape sq ext { s with timerArmed := false, isHolding := true }
  else s

/-- One observable step of the instance: an incoming draw event or the
pending timer firing. -/
inductive Act where
  | ev (e : DrawEvent) (now : ℚ)
  | fire

/-- State transition of a single `Act`. -/
def stepAct (sq : ℚ → ℚ) (ext : Option PluginRecognizer) (s : MState) (a : Act) : MState :=
  match a with
  | .ev e now => (chainIn s e now).1
  | .fire => fireTimer sq ext s

/-- Run a sequence of acts. -/
def runActs (sq : ℚ → ℚ) (ext : Option PluginRecognizer) (s : MState) (acts : List Act) :
    MState :=
  acts.foldl (stepAct sq ext) s

/-- Whether an act is a classification attempt in state `s`: the timer can
only fire (invoking `recognizeShape`) while it is pending. -/
def isAttempt (s : MState) (a : Act) : Bool :=
  match a with
  | .fire => s.timerArmed
  | _ => false

/-- Number of classification attempts performed while running `acts`. -/
def countAttempts (sq : ℚ → ℚ) (ext : Option PluginRecognizer) (s : MState) :
    List Act → ℕ
  | [] => 0
  | a :: rest =>
    (if isAttempt s a then 1 else 0) + countAttempts sq ext (stepAct sq ext s a) rest

/-- The last `n` elements of a list, in order. -/
def lastN (n : ℕ) (l : List α) : List α := l.drop (l.length - n)

/-- Static method `recognizeShapeFromPoints` (console entry point), in the
module-absent steady state (the optional dynamic import of `@tldraw/...` is
not part of this repository and absence is its permanent fallback): gate on
10 points, tag each point with the current time, then replicate the built-in
decision procedure using the static helpers. -/
def recognizeShapeFromPoints (sq : ℚ → ℚ) (now : ℚ) (points : List (ℚ × ℚ)) :
    Option ShapeType :=
  if points.length < 10 then none
  else
    let ptsWithTime := points.map (fun p => (⟨p.1, p.2, now⟩ : Pt))
    let aspect := bboxAspect ptsWithTime
    if infGT aspect 5 || infLT aspect 0.2 then
      if isLineStatic sq ptsWithTime then some .line else none
    else
      if (infGT aspect 0.7 && infLT aspect 1.3) && isCircleStatic sq ptsWithTime then
        some .circle
      else if isRectangleStatic ptsWithTime then some .rectangle
      else if isLineStatic sq ptsWithTime then some .line
      else none

/-- Public accessor `getRecognizedShape`: returns the stored value. -/
def getRecognizedShape (s : MState) : Option Recognized := s.recognizedShape

/-- Parameter extraction as the spec words it (§4.2): line endpoints first /
last; rectangle the axis-aligned bounding box (min / max of x and y over all
points); circle the square from centroid minus average radius to centroid
plus average radius on both axes.  Stated independently of `getShapeParams`
to compare the two (claim C6). -/
def specShapeParams (sq : ℚ → ℚ) (type : ShapeType) (points : List Pt) : ShapeParams :=
  match type with
  | .line =>
    ⟨(points.headD ⟨0, 0, 0⟩).x, (points.headD ⟨0, 0, 0⟩).y,
     (points.getLastD ⟨0, 0, 0⟩).x, (points.getLastD ⟨0, 0, 0⟩).y⟩
  | .rectangle =>
    ⟨listMin (points.map Pt.x), listMin (points.map Pt.y),
     listMax (points.map Pt.x), listMax (points.map Pt.y)⟩
  | .circle =>
    let n : ℚ := points.length
    let centerX := qsum (points.map Pt.x) / n
    let centerY := qsum (points.map Pt.y) / n
    let radius := qsum (points.map
      (fun p => sq ((p.x - centerX) ^ 2 + (p.y - centerY) ^ 2))) / n
    ⟨centerX - radius, centerY - radius, centerX + radius, centerY + radius⟩

/-- Whether an act stays inside the current stroke: a move event or a timer
firing (no `down`, no `up`). -/
def isMoveOrFire (a : Act) : Bool :=
  match a with
  | .ev (.move _ _) _ => true
  | .fire => true
  | _ => false

/-- A rational stand-in for `Math.sqrt` that agrees with the true square
root at `0`, the only argument the examples below apply it to. -/
def sq0 : ℚ → ℚ := fun _ => 0

/-- Ten identical sample points: a buffer whose first-to-last chord has
length 0. -/
def pts10z : List Pt := List.replicate 10 ⟨0, 0, 0⟩

/-- Ten identical console-API points `(0, 0)`. -/
def xy10z : List (ℚ × ℚ) := List.replicate 10 (0, 0)

/-- A stand-in for `Math.sqrt` agreeing with the true square root at
`10000 = 100²`, the only argument the wobbly example applies it to. -/
def sqW : ℚ → ℚ := fun q => if q = 10000 then 100 else 0

/-- A very elongated but wobbly stroke (aspect `100 / 19 > 5`, mean chord
deviation `19 ≥ 7`): the built-in classifier rejects it. -/
def ptsW : List Pt :=
  [⟨0, 0, 0⟩, ⟨10, 19, 1⟩, ⟨20, 19, 2⟩, ⟨30, 19, 3⟩, ⟨40, 19, 4⟩,
   ⟨50, 19, 5⟩, ⟨60, 19, 6⟩, ⟨70, 19, 7⟩, ⟨80, 19, 8⟩, ⟨100, 0, 9⟩]

/-- An instance state holding the wobbly buffer and a previously recognized
shape. -/
def s0 : MState := ⟨ptsW, false, false, some ⟨.line, 1, 2, 3, 4⟩⟩

/-- An external adapter whose `recognize` always returns null and that has
no `getParams` capability. -/
def extNull : PluginRecognizer := ⟨fun _ => none, none⟩

/-- A stand-in for `Math.sqrt` agreeing with the true square root at
`324 = 18²`, the only argument the straight-line example applies it to. -/
def sq18 : ℚ → ℚ := fun q => if q = 324 then 18 else 0

/-- Ten evenly spaced collinear console-API points from `(0,0)` to
`(18,0)`: chord length 18. -/
def xy18 : List (ℚ × ℚ) :=
  [(0, 0), (2, 0), (4, 0), (6, 0), (8, 0), (10, 0), (12, 0), (14, 0), (16, 0), (18, 0)]

/-- The collinear points as timestamped samples. -/
def pts18 : List Pt := xy18.map (fun p => ⟨p.1, p.2, 5⟩)

/-- A stand-in for `Math.sqrt` that satisfies `¬ sq q < 15 → 225 ≤ q`. -/
def sq225 : ℚ → ℚ := fun q => if 225 ≤ q then 15 else 0

/-! Auxiliary lemmas about the fold-based minimum and maximum and about
sorted lists, used to relate the source's sorted-array extremes to the
spec's bounding box. -/

lemma foldl_min_le_init (xs : List ℚ) (a : ℚ) : xs.foldl min a ≤ a := by
  induction xs generalizing a with
  | nil => exact le_refl a
  | cons x t ih => exact le_trans (ih (min a x)) (min_le_left a x)

lemma foldl_min_le_mem (xs : List ℚ) (a x : ℚ) (hx : x ∈ xs) : xs.foldl min a ≤ x := by
  induction xs generalizing a with
  | nil => cases hx
  | cons y t ih =>
    rcases List.mem_cons.mp hx with rfl | hx2
    · exact le_trans (foldl_min_le_init t (min a x)) (min_le_right a x)
    · exact ih (min a y) hx2

lemma foldl_min_mem (xs : List ℚ) (a : ℚ) : xs.foldl min a = a ∨ xs.foldl min a ∈ xs := by
  induction xs generalizing a with
  | nil => exact Or.inl rfl
  | cons x t ih =>
    rw [List.foldl_cons]
    rcases ih (min a x) with h | h
    · rcases min_choice a x with h2 | h2
      · exact Or.inl (by rw [h, h2])
      · exact Or.inr (by rw [h, h2]; exact List.mem_cons_self x t)
    · exact Or.inr (List.mem_cons_of_mem x h)

lemma listMin_le (l : List ℚ) (x : ℚ) (hx : x ∈ l) : listMin l ≤ x := by
  cases l with
  | nil => cases hx
  | cons y t =>
    rcases List.mem_cons.mp hx with rfl | hx2
    · exact foldl_min_le_init t x
    · exact foldl_min_le_mem t y x hx2

lemma listMin_mem (l : List ℚ) (h : l ≠ []) : listMin l ∈ l := by
  cases l with
  | nil => exact absurd rfl h
  | cons y t =>
    rcases foldl_min_mem t y with h2 | h2
    · rw [listMin, h2]; exact List.mem_cons_self y t
    · rw [listMin]; exact List.mem_cons_of_mem y h2

lemma init_le_foldl_max (xs : List ℚ) (a : ℚ) : a ≤ xs.foldl max a := by
  induction xs generalizing a with
  | nil => exact le_refl a
  | cons x t ih => exact le_trans (le_max_left a x) (ih (max a x))

lemma mem_le_foldl_max (xs : List ℚ) (a x : ℚ) (hx : x ∈ xs) : x ≤ xs.foldl max a := by
  induction xs generalizing a with
  | nil => cases hx
  | cons y t ih =>
    rcases List.mem_cons.mp hx with rfl | hx2
    · exact le_trans (le_max_right a x) (init_le_foldl_max t (max a x))
    · exact ih (max a y) hx2

lemma foldl_max_mem (xs : List ℚ) (a : ℚ) : xs.foldl max a = a ∨ xs.foldl max a ∈ xs := by
  induction xs generalizing a with
  | nil => exact Or.inl rfl
  | cons x t ih =>
    rw [List.foldl_cons]
    rcases ih (max a x) with h | h
    · rcases max_choice a x with h2 | h2
      · exact Or.inl (by rw [h, h2])
      · exact Or.inr (by rw [h, h2]; exact List.mem_cons_self x t)
    · exact Or.inr (List.mem_cons_of_mem x h)

lemma le_listMax (l : List ℚ) (x : ℚ) (hx : x ∈ l) : x ≤ listMax l := by
  cases l with
  | nil => cases hx
  | cons y t =>
    rcases List.mem_cons.mp hx with rfl | hx2
    · exact init_le_foldl_max t x
    · exact mem_le_foldl_max t y x hx2

lemma listMax_mem (l : List ℚ) (h : l ≠ []) : listMax l ∈ l := by
  cases l with
  | nil => exact absurd rfl h
  | cons y t =>
    rcases foldl_max_mem t y with h2 | h2
    · rw [listMax, h2]; exact List.mem_cons_self y t
    · rw [listMax]; exact List.mem_cons_of_mem y h2

lemma sorted_head_le (l : List ℚ) (hs : l.Sorted (· ≤ ·)) (hne : l ≠ []) (x : ℚ)
    (hx : x ∈ l) : l.head hne ≤ x := by
  cases l with
  | nil => exact absurd rfl hne
  | cons a t =>
    rcases List.mem_cons.mp hx with rfl | hx2
    · exact le_refl x
    · exact List.rel_of_sorted_cons hs x hx2

lemma sorted_le_getLast (l : List ℚ) (hs : l.Sorted (· ≤ ·)) (hne : l ≠ []) (x : ℚ)
    (hx : x ∈ l) : x ≤ l.getLast hne := by
  induction l with
  | nil => exact absurd rfl hne
  | cons a t ih =>
    cases t with
    | nil =>
      rcases List.mem_cons.mp hx with rfl | hx2
      · exact le_refl x
      · cases hx2
    | cons b t2 =>
      have hgl : (a :: b :: t2).getLast hne = (b :: t2).getLast (by simp) :=
        List.getLast_cons (by simp)
      rw [hgl]
      rcases List.mem_cons.mp hx with rfl | hx2
      · exact List.rel_of_sorted_cons hs _ (List.getLast_mem (by simp))
      · exact ih hs.of_cons (by simp) hx2

lemma head?_mergeSort_eq (l : List ℚ) (h : l ≠ []) :
    (l.mergeSort (fun a b => decide (a ≤ b))).head? = some (listMin l) := by
  have hperm : (l.mergeSort (fun a b => decide (a ≤ b))).Perm l := List.mergeSort_perm l _
  have hsort : (l.mergeSort (fun a b => decide (a ≤ b))).Sorted (· ≤ ·) :=
    List.sorted_mergeSort' l
  have hne : l.mergeSort (fun a b => decide (a ≤ b)) ≠ [] := by
    intro h0
    apply h
    have hlen := hperm.length_eq
    rw [h0] at hlen
    exact List.length_eq_zero.mp hlen.symm
  rw [List.head?_eq_head hne]
  congr 1
  refine le_antisymm ?_ ?_
  · exact sorted_head_le _ hsort hne _ (hperm.symm.mem_iff.mp (listMin_mem l h))
  · exact listMin_le l _ (hperm.mem_iff.mp (List.head_mem hne))

lemma getLast?_mergeSort_eq (l : List ℚ) (h : l ≠ []) :
    (l.mergeSort (fun a b => decide (a ≤ b))).getLast? = some (listMax l) := by
  have hperm : (l.mergeSort (fun a b => decide (a ≤ b))).Perm l := List.mergeSort_perm l _
  have hsort : (l.mergeSort (fun a b => decide (a ≤ b))).Sorted (· ≤ ·) :=
    List.sorted_mergeSort' l
  have hne : l.mergeSort (fun a b => decide (a ≤ b)) ≠ [] := by
    intro h0
    apply h
    have hlen := hperm.length_eq
    rw [h0] at hlen
    exact List.length_eq_zero.mp hlen.symm
  rw [List.getLast?_eq_getLast _ hne]
  congr 1
  refine le_antisymm ?_ ?_
  · exact le_listMax l _ (hperm.mem_iff.mp (List.getLast_mem hne))
  · exact sorted_le_getLast _ hsort hne _ (hperm.symm.mem_iff.mp (listMax_mem l h))

/-! Lemmas about the classification procedure. -/

lemma detectShape_elongated (sq : ℚ → ℚ) (pts : List Pt)
    (hb : (infGT (bboxAspect pts) 5 || infLT (bboxAspect pts) 0.2) = true)
    (h10 : ¬ pts.length < 10) :
    detectShape sq pts = if isLine sq pts then some .line else none := by
  simp only [detectShape]
  rw [if_neg h10, if_pos hb]

lemma isLineStatic_imp (sq : ℚ → ℚ) (pts : List Pt) (hst : isLineStatic sq pts = true) :
    ¬ pts.length < 5 ∧ ¬ sq (chordSq pts) < 15 ∧ isLine sq pts = true := by
  by_cases h5 : pts.length < 5
  · simp [isLineStatic, h5] at hst
  · by_cases h15 : sq (chordSq pts) < 15
    · exfalso
      simp only [isLineStatic] at hst
      rw [if_neg h5] at hst
      simp only [chordSq] at h15
      rw [if_pos h15] at hst
      exact Bool.false_ne_true hst
    · refine ⟨h5, h15, ?_⟩
      simp only [isLineStatic] at hst
      rw [if_neg h5] at hst
      simp only [chordSq] at h15
      rw [if_neg h15] at hst
      simp only [isLine]
      exact hst

/-- C2: for every draw event of kind down, move, or up, `chainIn` returns an
event equal to its input, regardless of buffer state, hold state, or
classification outcome — strict pass-through. -/
theorem claim2_pass_through (s : MState) (e : DrawEvent) (now : ℚ) :
    (chainIn s e now).2 = e := by
  cases e <;> rfl

/-- C3: for every point sequence of length strictly below 10, the built-in
detector returns null, the timer-triggered classification is a no-op on the
instance state, and the static console entry point returns null. -/
theorem claim3_short_input :
    (∀ (sq : ℚ → ℚ) (pts : List Pt), pts.length < 10 → detectShape sq pts = none)
    ∧ (∀ (sq : ℚ → ℚ) (ext : Option PluginRecognizer) (s : MState),
        s.points.length < 10 → recognizeShape sq ext s = s)
    ∧ (∀ (sq : ℚ → ℚ) (now : ℚ) (xy : List (ℚ × ℚ)),
        xy.length < 10 → recognizeShapeFromPoints sq now xy = none) := by
  refine ⟨?_, ?_, ?_⟩
  · intro sq pts h
    simp [detectShape, h]
  · intro sq ext s h
    simp [recognizeShape, h]
  · intro sq now xy h
    simp [recognizeShapeFromPoints, h]

/-- Witness for C3 at a one-point input. -/
theorem claim3_witness :
    detectShape sq0 [⟨0, 0, 0⟩] = none
    ∧ recognizeShape sq0 none ⟨[⟨0, 0, 0⟩], false, false, none⟩
        = ⟨[⟨0, 0, 0⟩], false, false, none⟩
    ∧ recognizeShapeFromPoints sq0 0 [(0, 0)] = none :=
  ⟨claim3_short_input.1 sq0 _ (by simp),
   claim3_short_input.2.1 sq0 none _ (by simp),
   claim3_short_input.2.2 sq0 0 _ (by simp)⟩

/-- C4: when the bounding-box aspect ratio (`+Infinity` for height 0) is
above 5 or below 0.2, the only possible non-null built-in classification is
Line: the result is Line exactly when the line test passes, else null, with
no circle or rectangle attempt. -/
theorem claim4_elongated (sq : ℚ → ℚ) (pts : List Pt)
    (h : infGT (bboxAspect pts) 5 = true ∨ infLT (bboxAspect pts) 0.2 = true) :
    (detectShape sq pts = some .line ∨ detectShape sq pts = none)
    ∧ (¬ pts.length < 10 → (detectShape sq pts = some .line ↔ isLine sq pts = true)) := by
  have hb : (infGT (bboxAspect pts) 5 || infLT (bboxAspect pts) 0.2) = true := by
    rcases h with h | h <;> simp [h]
  by_cases h10 : pts.length < 10
  · refine ⟨Or.inr ?_, fun hc => absurd h10 hc⟩
    simp [detectShape, h10]
  · rw [detectShape_elongated sq pts hb h10]
    constructor
    · by_cases hl : isLine sq pts = true
      · exact Or.inl (by simp [hl])
      · exact Or.inr (by simp [Bool.not_eq_true] at hl; simp [hl])
    · intro _
      by_cases hl : isLine sq pts = true
      · simp [hl]
      · simp [Bool.not_eq_true] at hl; simp [hl]

/-- Witness for C4 at a horizontal 10-point stroke (height 0, aspect
infinite). -/
theorem claim4_witness :
    (infGT (bboxAspect pts18) 5 = true ∨ infLT (bboxAspect pts18) 0.2 = true)
    ∧ ((detectShape sq18 pts18 = some .line ∨ detectShape sq18 pts18 = none)
       ∧ (¬ pts18.length < 10 →
           (detectShape sq18 pts18 = some .line ↔ isLine sq18 pts18 = true))) := by
  have h : infGT (bboxAspect pts18) 5 = true ∨ infLT (bboxAspect pts18) 0.2 = true := by
    left
    simp [bboxAspect, pts18, xy18, listMin, listMax, infGT]
  exact ⟨h, claim4_elongated sq18 pts18 h⟩

/-- C5, counterexample: the instance line test `isLine` used by
`detectShape` has no chord-length gate.  Ten identical points have chord
length 0 (so squared chord 0, well below 15² = 225), yet `isLine` accepts
them and `detectShape` classifies them as Line.  (`sq0` agrees with the true
square root at 0, the only argument it is applied to here.) -/
theorem claim5_counterexample :
    chordSq pts10z = 0 ∧ isLine sq0 pts10z = true
    ∧ detectShape sq0 pts10z = some .line := by
  refine ⟨?_, ?_, ?_⟩
  · simp [chordSq, pts10z, List.replicate]
  · simp [isLine, pts10z, List.replicate, qsum, sq0]
  · simp [detectShape, pts10z, bboxAspect, listMin, listMax, infGT, infLT, isLine,
      qsum, List.replicate, sq0]

/-- C5, amended: only the static line test `isLineStatic` enforces the
gates.  Whenever it accepts, the sequence has at least 5 points, the squared
chord length is at least 225 (chord at least 15, given that `sq` maps values
below 15 only to arguments below 225), and the mean-deviation test — which
is exactly the instance test `isLine` — passes.  The instance `isLine` has
no chord-length gate at all (see the counterexample). -/
theorem claim5_amended (sq : ℚ → ℚ) (pts : List Pt)
    (hsq : ∀ q : ℚ, ¬ sq q < 15 → 225 ≤ q)
    (hst : isLineStatic sq pts = true) :
    5 ≤ pts.length ∧ 225 ≤ chordSq pts ∧ isLine sq pts = true := by
  obtain ⟨h5, h15, hL⟩ := isLineStatic_imp sq pts hst
  exact ⟨Nat.not_lt.mp h5, hsq _ h15, hL⟩

/-- Witness for C5 on the collinear 10-point stroke of chord length 18. -/
theorem claim5_witness :
    (∀ q : ℚ, ¬ sq225 q < 15 → 225 ≤ q) ∧ isLineStatic sq225 pts18 = true
    ∧ (5 ≤ pts18.length ∧ 225 ≤ chordSq pts18 ∧ isLine sq225 pts18 = true) := by
  have h1 : ∀ q : ℚ, ¬ sq225 q < 15 → 225 ≤ q := by
    intro q hq
    by_cases h : 225 ≤ q
    · exact h
    · exact absurd (by simp [sq225, h]) hq
  have h2 : isLineStatic sq225 pts18 = true := by
    simp [isLineStatic, pts18, xy18, sq225, qsum]
    norm_num
  exact ⟨h1, h2, claim5_amended sq225 pts18 h1 h2⟩

lemma getShapeParams_spec (sq : ℚ → ℚ) (t : ShapeType) (pts : List Pt) (h : pts ≠ []) :
    getShapeParams sq t pts = some (specShapeParams sq t pts) := by
  cases t with
  | line =>
    cases pts with
    | nil => exact absurd rfl h
    | cons a rest =>
      have hgl : (a :: rest).getLast? = some ((a :: rest).getLast (by simp)) :=
        List.getLast?_eq_getLast _ (by simp)
      simp only [getShapeParams, specShapeParams, List.head?_cons, hgl]
      simp [List.getLastD_eq_getLast?, hgl]
  | rectangle =>
    have hx : pts.map Pt.x ≠ [] := by simp [h]
    have hy : pts.map Pt.y ≠ [] := by simp [h]
    simp only [getShapeParams, specShapeParams]
    rw [head?_mergeSort_eq _ hx, getLast?_mergeSort_eq _ hx,
      head?_mergeSort_eq _ hy, getLast?_mergeSort_eq _ hy]
  | circle =>
    simp only [getShapeParams, specShapeParams]
    rw [if_neg (by simp [h])]

/-- C6: for every non-empty point sequence, built-in parameter extraction
matches the spec's description: Line uses the literal first and last points
(endpoints, not a bounding box); Rectangle the axis-aligned bounding box
(min / max of x and y over all points); Circle the square centroid minus
average radius to centroid plus average radius on both axes. -/
theorem claim6_params (sq : ℚ → ℚ) (t : ShapeType) (pts : List Pt) (h : pts ≠ []) :
    getShapeParams sq t pts = some (specShapeParams sq t pts) :=
  getShapeParams_spec sq t pts h

/-- Witness for C6 at the collinear 10-point stroke, rectangle extraction. -/
theorem claim6_witness :
    pts18 ≠ [] ∧ getShapeParams sq18 .rectangle pts18
      = some (specShapeParams sq18 .rectangle pts18) := by
  have h : pts18 ≠ [] := by simp [pts18, xy18]
  exact ⟨h, claim6_params sq18 .rectangle pts18 h⟩

/-- C1, counterexample: with the buffer holding ten points that fail every
built-in test (a very elongated wobbly stroke), an adapter answering null,
and a previously stored Recognized Shape, a classification attempt does not
leave the stored value untouched: `getRecognizedShape` returns `some` before
the attempt and `none` after it.  (`sqW` agrees with the true square root at
`10000`, the only argument it is applied to here.) -/
theorem claim1_counterexample :
    getRecognizedShape s0 = some ⟨.line, 1, 2, 3, 4⟩
    ∧ getRecognizedShape (recognizeShape sqW (some extNull) s0) = none := by
  constructor
  · rfl
  · simp [recognizeShape, getRecognizedShape, s0, extNull, detectShape, ptsW, bboxAspect,
      listMin, listMax, infGT, infLT, isLine, qsum, sqW]
    norm_num

/-- C1, amended: when a classification attempt on a buffer of at least 10
points yields a null result from both the external adapter and the built-in
fallback, the stored Recognized Shape is reset to null (overwriting any
previous value); the rest of the state is untouched. -/
theorem claim1_amended (sq : ℚ → ℚ) (er : PluginRecognizer) (s : MState)
    (h10 : ¬ s.points.length < 10)
    (hext : er.recognize s.points = none)
    (hint : detectShape sq s.points = none) :
    recognizeShape sq (some er) s = { s with recognizedShape := none } := by
  simp [recognizeShape, h10, hext, hint]

/-- Witness for C1 at the wobbly ten-point buffer. -/
theorem claim1_witness :
    ¬ s0.points.length < 10
    ∧ extNull.recognize s0.points = none
    ∧ detectShape sqW s0.points = none
    ∧ recognizeShape sqW (some extNull) s0 = { s0 with recognizedShape := none } := by
  have h10 : ¬ s0.points.length < 10 := by simp [s0, ptsW]
  have hext : extNull.recognize s0.points = none := rfl
  have hint : detectShape sqW s0.points = none := by
    simp [detectShape, s0, ptsW, bboxAspect, listMin, listMax, infGT, infLT, isLine,
      qsum, sqW]
    norm_num
  exact ⟨h10, hext, hint, claim1_amended sqW extNull s0 h10 hext hint⟩

/-! Lemmas identifying the static helpers with the instance heuristics. -/

lemma isCircleStatic_eq : isCircleStatic = isCircle := rfl

lemma isRectangleStatic_eq : isRectangleStatic = isRectangle := rfl

lemma isLineStatic_eq_isLine (sq : ℚ → ℚ) (pts : List Pt)
    (h5 : ¬ pts.length < 5) (h15 : ¬ sq (chordSq pts) < 15) :
    isLineStatic sq pts = isLine sq pts := by
  simp only [isLineStatic, isLine]
  rw [if_neg h5]
  simp only [chordSq] at h15
  rw [if_neg h15]

/-- C9, counterexample: with no external module, the static console entry
point and the instance built-in classifier disagree on ten identical points
(length 10): `detectShape` accepts them as Line (its line test has no chord
gate), while the static fallback rejects them (its line test requires chord
length at least 15) and returns null. -/
theorem claim9_counterexample :
    detectShape sq0 (xy10z.map (fun p => (⟨p.1, p.2, 0⟩ : Pt))) = some .line
    ∧ recognizeShapeFromPoints sq0 0 xy10z = none := by
  constructor
  · simp [detectShape, xy10z, List.replicate, bboxAspect, listMin, listMax, infGT, infLT,
      isLine, qsum, sq0]
  · simp [recognizeShapeFromPoints, xy10z, List.replicate, bboxAspect, listMin, listMax,
      infGT, infLT, isLineStatic, qsum, sq0]

/-- C9, amended: with no external classifier module, the static console
entry point and the instance built-in classifier agree on every point list
of length at least 10 whose first-to-last chord length is at least 15 (the
square-root image of the squared chord not below 15); for shorter chords
they can disagree, because only the static line test gates on chord
length. -/
theorem claim9_amended (sq : ℚ → ℚ) (now : ℚ) (xy : List (ℚ × ℚ))
    (h10 : 10 ≤ xy.length)
    (h15 : ¬ sq (chordSq (xy.map (fun p => (⟨p.1, p.2, now⟩ : Pt)))) < 15) :
    recognizeShapeFromPoints sq now xy
      = detectShape sq (xy.map (fun p => (⟨p.1, p.2, now⟩ : Pt))) := by
  have h10n : ¬ xy.length < 10 := Nat.not_lt.mpr h10
  have hlen : (xy.map (fun p => (⟨p.1, p.2, now⟩ : Pt))).length = xy.length :=
    List.length_map _ _
  have h10p : ¬ (xy.map (fun p => (⟨p.1, p.2, now⟩ : Pt))).length < 10 := by
    rw [hlen]; exact h10n
  have h5 : ¬ (xy.map (fun p => (⟨p.1, p.2, now⟩ : Pt))).length < 5 := by
    rw [hlen]; omega
  have hl := isLineStatic_eq_isLine sq _ h5 h15
  simp only [recognizeShapeFromPoints, detectShape]
  rw [if_neg h10n, if_neg h10p, isCircleStatic_eq, isRectangleStatic_eq, hl]

/-- Witness for C9 at the collinear 10-point stroke of chord length 18. -/
theorem claim9_witness :
    10 ≤ xy18.length
    ∧ ¬ sq18 (chordSq (xy18.map (fun p => (⟨p.1, p.2, (5 : ℚ)⟩ : Pt)))) < 15
    ∧ recognizeShapeFromPoints sq18 5 xy18
        = detectShape sq18 (xy18.map (fun p => (⟨p.1, p.2, (5 : ℚ)⟩ : Pt))) := by
  have ha : 10 ≤ xy18.length := by simp [xy18]
  have hb : ¬ sq18 (chordSq (xy18.map (fun p => (⟨p.1, p.2, (5 : ℚ)⟩ : Pt)))) < 15 := by
    simp [sq18, chordSq, xy18]
    norm_num
  exact ⟨ha, hb, claim9_amended sq18 5 xy18 ha hb⟩

/-- C10: whenever the built-in classification path produces a shape (so the
classify-level gate passed and the detector returned one of the three tags
of the closed `ShapeType`), `getShapeParams` is called with at least 10
points; its first / last-point accesses and its divisions by the list length
are then well-defined (the extraction yields `some`), and the
`'Unknown shape type'` throw is unreachable. -/
theorem claim10_safety (sq : ℚ → ℚ) (pts : List Pt) (t : ShapeType)
    (h : detectShape sq pts = some t) :
    10 ≤ pts.length ∧ (getShapeParams sq t pts).isSome = true := by
  have h10 : ¬ pts.length < 10 := by
    intro hlt
    rw [detectShape, if_pos hlt] at h
    cases h
  have hne : pts ≠ [] := by
    intro h0
    rw [h0] at h10
    exact h10 (by norm_num)
  refine ⟨Nat.not_lt.mp h10, ?_⟩
  rw [getShapeParams_spec sq t pts hne]
  rfl

/-- Witness for C10 at the collinear 10-point stroke, classified as Line. -/
theorem claim10_witness :
    detectShape sq18 pts18 = some .line
    ∧ (10 ≤ pts18.length ∧ (getShapeParams sq18 .line pts18).isSome = true) := by
  have h : detectShape sq18 pts18 = some .line := by
    simp [detectShape, pts18, xy18, bboxAspect, listMin, listMax, infGT, infLT, isLine,
      qsum, sq18]
  exact ⟨h, claim10_safety sq18 pts18 .line h⟩

/-! Lemmas about the stateful machine: a classification attempt touches only
`recognizedShape`, and the buffer behaves as a 200-element sliding window. -/

lemma recognizeShape_cases (sq : ℚ → ℚ) (ext : Option PluginRecognizer) (s : MState) :
    recognizeShape sq ext s = s
    ∨ ∃ r, recognizeShape sq ext s = { s with recognizedShape := r } := by
  simp only [recognizeShape]
  repeat' split
  all_goals first
  | exact Or.inl rfl
  | exact Or.inr ⟨_, rfl⟩

lemma recognizeShape_preserves (sq : ℚ → ℚ) (ext : Option PluginRecognizer) (s : MState) :
    (recognizeShape sq ext s).points = s.points
    ∧ (recognizeShape sq ext s).isHolding = s.isHolding
    ∧ (recognizeShape sq ext s).timerArmed = s.timerArmed := by
  rcases recognizeShape_cases sq ext s with h | ⟨r, h⟩ <;> rw [h] <;> exact ⟨rfl, rfl, rfl⟩

lemma chainIn_move_points (s : MState) (x y now : ℚ) :
    (chainIn s (.move x y) now).1.points = boundedPush s.points ⟨x, y, now⟩ := by
  unfold chainIn
  by_cases hh : s.isHolding = true <;> simp [hh]

lemma chainIn_move_isHolding (s : MState) (x y now : ℚ) :
    (chainIn s (.move x y) now).1.isHolding = s.isHolding := by
  unfold chainIn
  by_cases hh : s.isHolding = true <;> simp [hh]

lemma chainIn_move_timerArmed_holding (s : MState) (x y now : ℚ)
    (hh : s.isHolding = true) :
    (chainIn s (.move x y) now).1.timerArmed = s.timerArmed := by
  unfold chainIn
  simp [hh]

lemma boundedPush_length_le (l : List Pt) (p : Pt) (h : l.length ≤ 200) :
    (boundedPush l p).length ≤ 200 := by
  unfold boundedPush
  by_cases h2 : 200 < (l ++ [p]).length
  · rw [if_pos h2]
    rw [List.length_tail, List.length_append]
    simp only [List.length_singleton]
    omega
  · rw [if_neg h2]
    rw [List.length_append] at h2 ⊢
    simp only [List.length_singleton] at h2 ⊢
    omega

lemma stepAct_points_le (sq : ℚ → ℚ) (ext : Option PluginRecognizer) (s : MState)
    (a : Act) (h : s.points.length ≤ 200) :
    (stepAct sq ext s a).points.length ≤ 200 := by
  cases a with
  | fire =>
    show (fireTimer sq ext s).points.length ≤ 200
    unfold fireTimer
    by_cases ht : s.timerArmed = true
    · rw [if_pos ht, (recognizeShape_preserves sq ext _).1]
      exact h
    · rw [if_neg ht]
      exact h
  | ev e now =>
    cases e with
    | down x y =>
      show (chainIn s (.down x y) now).1.points.length ≤ 200
      simp [chainIn]
    | up =>
      show (chainIn s .up now).1.points.length ≤ 200
      simp [chainIn]
    | move x y =>
      show (chainIn s (.move x y) now).1.points.length ≤ 200
      rw [chainIn_move_points]
      exact boundedPush_length_le s.points _ h

lemma runActs_length_le (sq : ℚ → ℚ) (ext : Option PluginRecognizer) (acts : List Act) :
    ∀ s : MState, s.points.length ≤ 200 → (runActs sq ext s acts).points.length ≤ 200 := by
  induction acts with
  | nil => exact fun s h => h
  | cons a rest ih =>
    intro s h
    exact ih (stepAct sq ext s a) (stepAct_points_le sq ext s a h)

lemma boundedPush_lastN (L : List Pt) (p : Pt) :
    boundedPush (lastN 200 L) p = lastN 200 (L ++ [p]) := by
  unfold boundedPush lastN
  rcases le_or_lt L.length 200 with h | h
  · have h0 : L.length - 200 = 0 := by omega
    rw [h0, List.drop_zero]
    rcases lt_or_eq_of_le h with h1 | h1
    · have hc : ¬ 200 < (L ++ [p]).length := by
        rw [List.length_append]; simp only [List.length_singleton]; omega
      rw [if_neg hc]
      have h2 : (L ++ [p]).length - 200 = 0 := by
        rw [List.length_append]; simp only [List.length_singleton]; omega
      rw [h2, List.drop_zero]
    · have hc : 200 < (L ++ [p]).length := by
        rw [List.length_append]; simp only [List.length_singleton]; omega
      rw [if_pos hc]
      have h2 : (L ++ [p]).length - 200 = 1 := by
        rw [List.length_append]; simp only [List.length_singleton]; omega
      rw [h2, List.drop_one]
  · have hlen : (L.drop (L.length - 200)).length = 200 := by
      rw [List.length_drop]; omega
    have hc : 200 < (L.drop (L.length - 200) ++ [p]).length := by
      rw [List.length_append, hlen]; simp
    rw [if_pos hc]
    have hne : L.drop (L.length - 200) ≠ [] := by
      intro h0
      rw [h0] at hlen
      simp at hlen
    obtain ⟨a, t, hat⟩ := List.exists_cons_of_ne_nil hne
    have hdrop1 : L.drop (L.length - 200 + 1) = t := by
      have := List.drop_drop 1 (L.length - 200) L
      rw [hat] at this
      simpa using this.symm
    have hk : (L ++ [p]).length - 200 = L.length - 200 + 1 := by
      rw [List.length_append]; simp only [List.length_singleton]; omega
    rw [hk, List.drop_append_of_le_length (by omega), hdrop1, hat]
    rfl

lemma runActs_moves_lastN (sq : ℚ → ℚ) (ext : Option PluginRecognizer) (ms : List Pt) :
    ∀ (s : MState) (L : List Pt), s.points = lastN 200 L →
    (runActs sq ext s (ms.map (fun p => Act.ev (.move p.x p.y) p.time))).points
      = lastN 200 (L ++ ms) := by
  induction ms with
  | nil =>
    intro s L h
    simpa using h
  | cons p rest ih =>
    intro s L h
    rw [List.map_cons]
    have hstep : (stepAct sq ext s (Act.ev (.move p.x p.y) p.time)).points
        = lastN 200 (L ++ [p]) := by
      show (chainIn s (.move p.x p.y) p.time).1.points = _
      rw [chainIn_move_points, h]
      exact boundedPush_lastN L p
    have hres := ih (stepAct sq ext s (Act.ev (.move p.x p.y) p.time)) (L ++ [p]) hstep
    rw [List.append_assoc] at hres
    simpa using hres

lemma fireTimer_unarmed (sq : ℚ → ℚ) (ext : Option PluginRecognizer) (s : MState)
    (h : ¬ s.timerArmed = true) : fireTimer sq ext s = s := by
  unfold fireTimer
  rw [if_neg h]

lemma fireTimer_armed_state (sq : ℚ → ℚ) (ext : Option PluginRecognizer) (s : MState)
    (h : s.timerArmed = true) :
    (fireTimer sq ext s).isHolding = true ∧ (fireTimer sq ext s).timerArmed = false := by
  unfold fireTimer
  rw [if_pos h]
  obtain ⟨-, h2, h3⟩ := recognizeShape_preserves sq ext
    { s with timerArmed := false, isHolding := true }
  exact ⟨h2, h3⟩

lemma countAttempts_le (sq : ℚ → ℚ) (ext : Option PluginRecognizer) (acts : List Act) :
    ∀ s : MState, acts.all isMoveOrFire = true →
    (s.isHolding = true → s.timerArmed = false) →
    countAttempts sq ext s acts ≤ if s.isHolding then 0 else 1 := by
  induction acts with
  | nil =>
    intro s _ _
    rw [countAttempts]
    exact Nat.zero_le _
  | cons a rest ih =>
    intro s hall hinv
    have hall2 : rest.all isMoveOrFire = true := by
      rw [List.all_cons] at hall
      exact (Bool.and_eq_true _ _).mp hall |>.2
    have hma : isMoveOrFire a = true := by
      rw [List.all_cons] at hall
      exact (Bool.and_eq_true _ _).mp hall |>.1
    rw [countAttempts]
    cases a with
    | fire =>
      by_cases harm : s.timerArmed = true
      · have hs' := fireTimer_armed_state sq ext s harm
        have hrest := ih (stepAct sq ext s Act.fire) hall2 (fun _ => hs'.2)
        rw [show (stepAct sq ext s Act.fire) = fireTimer sq ext s from rfl] at hrest ⊢
        rw [hs'.1, if_pos rfl] at hrest
        have hh : s.isHolding = false := by
          cases hof : s.isHolding with
          | false => rfl
          | true => rw [hinv hof] at harm; cases harm
        have hatt : isAttempt s Act.fire = true := harm
        rw [hatt, hh, if_pos rfl, if_neg (by simp)]
        omega
      · have hstep : stepAct sq ext s Act.fire = s := fireTimer_unarmed sq ext s harm
        rw [hstep]
        have : isAttempt s Act.fire = false := by
          simp [isAttempt]
          exact Bool.not_eq_true _ ▸ (by simpa using harm)
        rw [this]
        simpa using ih s hall2 hinv
    | ev e now =>
      cases e with
      | down x y => cases hma
      | up => cases hma
      | move x y =>
        have hhold : (chainIn s (.move x y) now).1.isHolding = s.isHolding :=
          chainIn_move_isHolding s x y now
        have hinv2 : (chainIn s (.move x y) now).1.isHolding = true →
            (chainIn s (.move x y) now).1.timerArmed = false := by
          intro h
          rw [hhold] at h
          rw [chainIn_move_timerArmed_holding s x y now h]
          exact hinv h
        have hrest := ih (chainIn s (.move x y) now).1 hall2 hinv2
        rw [hhold] at hrest
        have hatt : isAttempt s (Act.ev (.move x y) now) = false := rfl
        rw [hatt, if_neg (by simp)]
        simpa using hrest

/-- C7: starting from any state within the buffer bound (in particular the
initial state), the stroke buffer's length never exceeds the capacity 200
under any sequence of events and timer firings; and across a stroke — a
`down` followed by moves — the buffer is exactly the 200 most recent samples
in arrival order (the window `lastN 200`), which has full length 200 as soon
as more than 200 samples have been appended. -/
theorem claim7_buffer :
    (∀ (sq : ℚ → ℚ) (ext : Option PluginRecognizer) (s : MState) (acts : List Act),
        s.points.length ≤ 200 → (runActs sq ext s acts).points.length ≤ 200)
    ∧ (∀ (sq : ℚ → ℚ) (ext : Option PluginRecognizer) (s : MState) (x y t : ℚ)
        (ms : List Pt),
        (runActs sq ext s
          (Act.ev (.down x y) t :: ms.map (fun p => Act.ev (.move p.x p.y) p.time))).points
          = lastN 200 (⟨x, y, t⟩ :: ms))
    ∧ (∀ l : List Pt, 200 < l.length → (lastN 200 l).length = 200) := by
  refine ⟨?_, ?_, ?_⟩
  · intro sq ext s acts h
    exact runActs_length_le sq ext acts s h
  · intro sq ext s x y t ms
    have hdown : (stepAct sq ext s (Act.ev (.down x y) t)).points = lastN 200 [⟨x, y, t⟩] := by
      show [(⟨x, y, t⟩ : Pt)] = lastN 200 [⟨x, y, t⟩]
      simp [lastN]
    have hres := runActs_moves_lastN sq ext ms (stepAct sq ext s (Act.ev (.down x y) t))
      [⟨x, y, t⟩] hdown
    simpa using hres
  · intro l h
    unfold lastN
    rw [List.length_drop]
    omega

/-- Witness for C7: the empty run from the initial state, a bare `down`
stroke, and a 201-sample window. -/
theorem claim7_witness :
    (runActs sq0 none initState []).points.length ≤ 200
    ∧ (runActs sq0 none initState [Act.ev (.down 0 0) 0]).points = lastN 200 [⟨0, 0, 0⟩]
    ∧ (lastN 200 (List.replicate 201 (⟨0, 0, 0⟩ : Pt))).length = 200 := by
  refine ⟨claim7_buffer.1 sq0 none initState [] (by simp [initState]), ?_, ?_⟩
  · have h2 := claim7_buffer.2.1 sq0 none initState 0 0 0 []
    rw [List.map_nil] at h2
    exact h2
  · exact claim7_buffer.2.2 (List.replicate 201 ⟨0, 0, 0⟩)
      (by rw [List.length_replicate]; omega)

/-- C8: once the hold timer has fired within a stroke (`isHolding` set, no
timer pending), a move event still appends its point through the
capacity-bounded push but leaves the timer state untouched (never rearms)
and keeps holding; no classification attempt occurs over any further
in-stroke acts; and a whole stroke — a `down` followed by in-stroke acts —
performs at most one classification attempt. -/
theorem claim8_holding :
    (∀ (s : MState) (x y now : ℚ), s.isHolding = true →
        (chainIn s (.move x y) now).1.points = boundedPush s.points ⟨x, y, now⟩
        ∧ (chainIn s (.move x y) now).1.timerArmed = s.timerArmed
        ∧ (chainIn s (.move x y) now).1.isHolding = true)
    ∧ (∀ (sq : ℚ → ℚ) (ext : Option PluginRecognizer) (s : MState) (acts : List Act),
        acts.all isMoveOrFire = true → s.isHolding = true → s.timerArmed = false →
        countAttempts sq ext s acts = 0)
    ∧ (∀ (sq : ℚ → ℚ) (ext : Option PluginRecognizer) (s : MState) (x y t : ℚ)
        (rest : List Act), rest.all isMoveOrFire = true →
        countAttempts sq ext s (Act.ev (.down x y) t :: rest) ≤ 1) := by
  refine ⟨?_, ?_, ?_⟩
  · intro s x y now hh
    refine ⟨chainIn_move_points s x y now, chainIn_move_timerArmed_holding s x y now hh, ?_⟩
    rw [chainIn_move_isHolding s x y now]
    exact hh
  · intro sq ext s acts hall hh harm
    have := countAttempts_le sq ext acts s hall (fun _ => harm)
    rw [hh] at this
    simpa using this
  · intro sq ext s x y t rest hall
    rw [countAttempts]
    have h0 : isAttempt s (Act.ev (.down x y) t) = false := rfl
    rw [h0]
    have hstate : (stepAct sq ext s (Act.ev (.down x y) t)).isHolding = false := rfl
    have hrest := countAttempts_le sq ext rest (stepAct sq ext s (Act.ev (.down x y) t))
      hall (by intro hcontra; rw [hstate] at hcontra; cases hcontra)
    rw [hstate] at hrest
    simpa using hrest

/-- Witness for C8: a holding state absorbing a move and a fire, and a full
stroke with one fire. -/
theorem claim8_witness :
    ((chainIn ⟨pts10z, true, false, none⟩ (.move 1 2) 3).1.points
        = boundedPush pts10z ⟨1, 2, 3⟩
      ∧ (chainIn ⟨pts10z, true, false, none⟩ (.move 1 2) 3).1.timerArmed
        = (⟨pts10z, true, false, none⟩ : MState).timerArmed
      ∧ (chainIn ⟨pts10z, true, false, none⟩ (.move 1 2) 3).1.isHolding = true)
    ∧ countAttempts sq0 none ⟨pts10z, true, false, none⟩
        [Act.ev (.move 1 2) 3, Act.fire] = 0
    ∧ countAttempts sq0 none initState [Act.ev (.down 0 0) 0, Act.fire] ≤ 1 := by
  refine ⟨claim8_holding.1 ⟨pts10z, true, false, none⟩ 1 2 3 rfl, ?_, ?_⟩
  · exact claim8_holding.2.1 sq0 none ⟨pts10z, true, false, none⟩
      [Act.ev (.move 1 2) 3, Act.fire] (by rfl) rfl rfl
  · exact claim8_holding.2.2 sq0 none initState 0 0 0 [Act.fire] (by rfl)

end Klecks
